import Mathlib

/-!
Verification of the go-npm binary installer (src/index.js).

The development shallowly embeds the program's pure logic:

* the JavaScript global string replacement `s.replace(/pat/g, r)` on literal
  patterns, as a left-to-right, non-overlapping scan over `List Char`;
* the architecture and platform mappings;
* `validateConfiguration` and `parsePackageJson` (including the faulting
  property read on a missing `goBinary` descriptor);
* the release/asset resolution of `onReleaseResponse`;
* `getInstallationPath`'s fallback chain;
* the pre-query token gate of `install`;
* the command dispatch and `uninstall`'s try/catch.

Stateful or asynchronous pieces (subprocess execution, HTTP, the
filesystem) enter as explicit inputs: the exec result, the parsed release
list, the outcome of `fs.unlinkSync`.
-/

namespace GoNpm

/-! ### JavaScript global string replacement

`String.prototype.replace` with a global literal regex scans left to right,
replaces each non-overlapping occurrence, and resumes scanning after the
replacement.  The replacement string is not inserted verbatim: GetSubstitution
interprets the patterns dollar-dollar (a literal dollar), dollar-ampersand
(the matched text), dollar-backquote (the part of the original string before
the match) and dollar-quote (the part after the match); every other
character, including a dollar not followed by one of those four characters
(there are no capture groups in the literal-token regexes), is copied
verbatim.

`jsReplaceAllLitF` is the fuel-indexed scan for a replacement taken
verbatim (fuel bounds the number of consumed characters, so the recursion
is structural); `jsReplaceAllLit` supplies the input's length as fuel.  The
faithful scan `jsReplaceAll`, defined after it, adds GetSubstitution and
coincides with the literal scan whenever the replacement contains no
substitution pattern. -/

def jsReplaceAllLitF (pat r : List Char) : Nat → List Char → List Char
  | 0, s => s
  | _ + 1, [] => []
  | fuel + 1, c :: s =>
    if pat ≠ [] ∧ pat.isPrefixOf (c :: s) then
      r ++ jsReplaceAllLitF pat r fuel (List.drop pat.length (c :: s))
    else
      c :: jsReplaceAllLitF pat r fuel s

def jsReplaceAllLit (s pat r : List Char) : List Char :=
  jsReplaceAllLitF pat r s.length s

theorem jsReplaceAllLitF_nil (pat r : List Char) (f : Nat) :
    jsReplaceAllLitF pat r f [] = [] := by
  cases f <;> rfl

theorem jsReplaceAllLitF_fuel (pat r : List Char) :
    ∀ f₁ f₂ s, s.length ≤ f₁ → s.length ≤ f₂ →
      jsReplaceAllLitF pat r f₁ s = jsReplaceAllLitF pat r f₂ s := by
  intro f₁
  induction f₁ with
  | zero =>
    intro f₂ s h1 _
    have hs : s = [] := List.eq_nil_of_length_eq_zero (Nat.le_zero.mp h1)
    subst hs
    simp [jsReplaceAllLitF_nil]
  | succ f ih =>
    intro f₂ s h1 h2
    cases s with
    | nil => simp [jsReplaceAllLitF_nil]
    | cons c s₂ =>
      cases f₂ with
      | zero => simp at h2
      | succ g =>
        show jsReplaceAllLitF pat r (f + 1) (c :: s₂)
            = jsReplaceAllLitF pat r (g + 1) (c :: s₂)
        simp only [jsReplaceAllLitF]
        by_cases hc : pat ≠ [] ∧ pat.isPrefixOf (c :: s₂)
        · rw [if_pos hc, if_pos hc]
          have hlen : pat.length ≥ 1 := by
            cases hp : pat with
            | nil => exact absurd hp hc.1
            | cons x xs => simp [hp]
          have hd : (List.drop pat.length (c :: s₂)).length ≤ s₂.length := by
            rw [ List.length_drop]
            simp
            omega
          rw [ih g (List.drop pat.length (c :: s₂))
            (by simp at h1; omega) (by simp at h2; omega)]
        · rw [if_neg hc, if_neg hc]
          rw [ih g s₂ (by simp at h1; omega) (by simp at h2; omega)]

theorem jsReplaceAllLit_nil (pat r : List Char) : jsReplaceAllLit [] pat r = [] := rfl

theorem jsReplaceAllLit_cons (pat r : List Char) (c : Char) (s : List Char) :
    jsReplaceAllLit (c :: s) pat r =
      if pat ≠ [] ∧ pat.isPrefixOf (c :: s) then
        r ++ jsReplaceAllLit (List.drop pat.length (c :: s)) pat r
      else
        c :: jsReplaceAllLit s pat r := by
  show jsReplaceAllLitF pat r (s.length + 1) (c :: s) = _
  simp only [jsReplaceAllLitF]
  by_cases hc : pat ≠ [] ∧ pat.isPrefixOf (c :: s)
  · rw [if_pos hc, if_pos hc]
    have hlen : pat.length ≥ 1 := by
      cases hp : pat with
      | nil => exact absurd hp hc.1
      | cons x xs => simp [hp]
    have hd : (List.drop pat.length (c :: s)).length ≤ s.length := by
      rw [ List.length_drop]
      simp
      omega
    show r ++ jsReplaceAllLitF pat r s.length (List.drop pat.length (c :: s)) = _
    rw [jsReplaceAllLit]
    rw [jsReplaceAllLitF_fuel pat r s.length
      (List.drop pat.length (c :: s)).length (List.drop pat.length (c :: s)) hd le_rfl]
  · rw [if_neg hc, if_neg hc]
    rfl

/-- Replacement is the identity on strings that do not contain the pattern. -/
theorem jsReplaceAllLit_of_not_infix (p r : List Char) :
    ∀ s, ¬ p <:+: s → jsReplaceAllLit s p r = s := by
  intro s
  induction s with
  | nil => intro _; rfl
  | cons c s₂ ih =>
    intro h
    rw [jsReplaceAllLit_cons]
    have hc : ¬ (p ≠ [] ∧ p.isPrefixOf (c :: s₂)) := by
      rintro ⟨_, hpre⟩
      exact h ( List.IsPrefix.isInfix ( List.isPrefixOf_iff_prefix.mp hpre))
    rw [if_neg hc]
    rw [ih (fun hi => h ( List.infix_cons hi))]

/-- A token starting with a brace cannot begin inside a brace-free block `r`,
so an occurrence of the token in `r ++ w` is an occurrence in `w`. -/
theorem token_infix_drop_append (t w : List Char) (ht : ∃ u, t = '{' :: u) :
    ∀ r : List Char, '{' ∉ r → t <:+: r ++ w → t <:+: w := by
  intro r
  induction r with
  | nil =>
    intro _ h
    simpa using h
  | cons x r₂ ih =>
    intro hbl h
    rw [List.cons_append] at h
    rcases List.infix_cons_iff.mp h with hpre | hin
    · obtain ⟨u, htu⟩ := ht
      subst htu
      rcases List.cons_prefix_cons.mp hpre with ⟨hx, _⟩
      exact absurd (by rw [hx]; exact List.mem_cons_self x r₂) hbl
    · exact ih (fun hm => hbl (List.mem_cons_of_mem x hm)) hin

/-- Tracking a proper suffix of a token backwards through one replacement pass:
if a nonempty suffix of the token (which necessarily ends in a closing brace)
is a prefix of the replaced string, it was already a prefix of the input.
Requires the replacement `r` to be brace-free and not a factor of the token. -/
theorem token_prefix_back (p r t : List Char)
    (ht2 : ∃ u, t = u ++ ['}'])
    (hbr : '}' ∉ r) (hrt : ¬ r <:+: t) :
    ∀ n s k, s.length ≤ n → k < t.length →
      (t.drop k) <+: jsReplaceAllLit s p r → (t.drop k) <+: s := by
  have hne : ∀ k, k < t.length → t.drop k ≠ [] := by
    intro k hk h
    have hl := List.length_drop k t
    rw [h] at hl
    simp at hl
    omega
  intro n
  induction n with
  | zero =>
    intro s k hs hk hp
    have hsnil : s = [] := List.eq_nil_of_length_eq_zero (Nat.le_zero.mp hs)
    subst hsnil
    rw [jsReplaceAllLit_nil] at hp
    exact absurd (List.prefix_nil.mp hp) (hne k hk)
  | succ n ih =>
    intro s k hs hk hp
    cases s with
    | nil =>
      rw [jsReplaceAllLit_nil] at hp
      exact absurd (List.prefix_nil.mp hp) (hne k hk)
    | cons c s₂ =>
      rw [jsReplaceAllLit_cons] at hp
      by_cases hc : p ≠ [] ∧ p.isPrefixOf (c :: s₂)
      · rw [if_pos hc] at hp
        by_cases hlen : (t.drop k).length ≤ r.length
        · have hpr : t.drop k <+: r :=
            List.prefix_of_prefix_length_le hp (List.prefix_append r _) hlen
          obtain ⟨u, htu⟩ := ht2
          have hkm : k ≤ u.length := by
            rw [htu] at hk
            simp at hk
            omega
          have hdrop : t.drop k = u.drop k ++ ['}'] := by
            rw [htu, List.drop_append_eq_append_drop, Nat.sub_eq_zero_of_le hkm,
              List.drop_zero]
          have hmem : '}' ∈ t.drop k := by
            rw [hdrop]
            exact List.mem_append_right _ (List.mem_singleton.mpr rfl)
          exact absurd (List.IsPrefix.subset hpr hmem) hbr
        · push_neg at hlen
          have hrp : r <+: t.drop k :=
            List.prefix_of_prefix_length_le (List.prefix_append r _) hp (le_of_lt hlen)
          have : r <:+: t :=
            List.IsInfix.trans ( List.IsPrefix.isInfix hrp)
              ( List.IsSuffix.isInfix (List.drop_suffix k t))
          exact absurd this hrt
      · rw [if_neg hc] at hp
        rw [← List.head_cons_tail (t.drop k) (hne k hk)] at hp
        rcases List.cons_prefix_cons.mp hp with ⟨hhead, htail⟩
        rw [ List.tail_drop] at htail
        rw [← List.head_cons_tail (t.drop k) (hne k hk), List.tail_drop,
          List.cons_prefix_cons]
        by_cases hk1 : k + 1 < t.length
        · exact ⟨hhead, ih s₂ (k + 1) (by simp at hs; omega) hk1 htail⟩
        · have hnil : t.drop (k + 1) = [] := List.drop_eq_nil_of_le (by omega)
          rw [hnil]
          exact ⟨hhead, List.nil_prefix⟩

/-- Tracking a full token backwards through one replacement pass: an occurrence
of the token after replacing `p` by `r` was already present in the input, and
the token is not `p` (all occurrences of `p` have been replaced). -/
theorem token_infix_back (p r t : List Char)
    (hpne : p ≠ [])
    (ht1 : ∃ u, t = '{' :: u)
    (ht2 : ∃ u, t = u ++ ['}'])
    (hbl : '{' ∉ r) (hbr : '}' ∉ r) (hrt : ¬ r <:+: t) :
    ∀ n s, s.length ≤ n → t <:+: jsReplaceAllLit s p r → t <:+: s ∧ t ≠ p := by
  have htne : t ≠ [] := by
    obtain ⟨u, htu⟩ := ht1
    rw [htu]
    simp
  intro n
  induction n with
  | zero =>
    intro s hs hi
    have hsnil : s = [] := List.eq_nil_of_length_eq_zero (Nat.le_zero.mp hs)
    subst hsnil
    rw [jsReplaceAllLit_nil] at hi
    exact absurd (List.eq_nil_of_infix_nil hi) htne
  | succ n ih =>
    intro s hs hi
    cases s with
    | nil =>
      rw [jsReplaceAllLit_nil] at hi
      exact absurd (List.eq_nil_of_infix_nil hi) htne
    | cons c s₂ =>
      rw [jsReplaceAllLit_cons] at hi
      by_cases hc : p ≠ [] ∧ p.isPrefixOf (c :: s₂)
      · rw [if_pos hc] at hi
        have hi2 : t <:+: jsReplaceAllLit (List.drop p.length (c :: s₂)) p r :=
          token_infix_drop_append t _ ht1 r hbl hi
        have hplen : p.length ≥ 1 := by
          cases hq : p with
          | nil => exact absurd hq hc.1
          | cons x xs => simp [hq]
        have hlen : (List.drop p.length (c :: s₂)).length ≤ n := by
          rw [ List.length_drop]
          simp at hs ⊢
          omega
        obtain ⟨hts, htp⟩ := ih (List.drop p.length (c :: s₂)) hlen hi2
        exact ⟨ List.IsInfix.trans hts
          ( List.IsSuffix.isInfix (List.drop_suffix _ _)), htp⟩
      · rw [if_neg hc] at hi
        rcases List.infix_cons_iff.mp hi with hpre | hin
        · obtain ⟨u, htu⟩ := ht1
          rw [htu] at hpre
          rcases List.cons_prefix_cons.mp hpre with ⟨hhead, htail⟩
          have hu : t.drop 1 = u := by rw [htu]; rfl
          have h1 : 1 < t.length := by
            obtain ⟨u₂, htu₂⟩ := ht2
            rcases u₂ with _ | ⟨x, u₃⟩
            · rw [htu₂] at htu
              simp at htu
            · rw [htu₂]
              simp
          have htail₂ : t.drop 1 <+: s₂ :=
            token_prefix_back p r t ht2 hbr hrt n s₂ 1
              (by simp at hs; omega) h1 (by rw [hu]; exact htail)
          have hpre₂ : t <+: c :: s₂ := by
            rw [htu, List.cons_prefix_cons]
            exact ⟨hhead, by rw [← hu]; exact htail₂⟩
          refine ⟨ List.IsPrefix.isInfix hpre₂, fun htp => ?_⟩
          subst htp
          exact hc ⟨hpne, List.isPrefixOf_iff_prefix.mpr hpre₂⟩
        · obtain ⟨hts, htp⟩ := ih s₂ (by simp at hs; omega) hin
          exact ⟨ List.infix_cons hts, htp⟩

theorem token_infix_back_all (p r t : List Char)
    (hpne : p ≠ [])
    (ht1 : ∃ u, t = '{' :: u)
    (ht2 : ∃ u, t = u ++ ['}'])
    (hbl : '{' ∉ r) (hbr : '}' ∉ r) (hrt : ¬ r <:+: t) :
    ∀ s, t <:+: jsReplaceAllLit s p r → t <:+: s ∧ t ≠ p :=
  fun s => token_infix_back p r t hpne ht1 ht2 hbl hbr hrt s.length s le_rfl

/-! ### GetSubstitution and the faithful scan -/

/-- Whether a character after a dollar starts one of the four substitution
patterns (dollar, ampersand, backquote, quote; character codes 36, 38, 96,
39). -/
def isSubstIntro (d : Char) : Bool :=
  d = '$' || d = '&' || d = Char.ofNat 96 || d = Char.ofNat 39

/-- GetSubstitution for a literal-pattern match: expand the replacement
string, substituting the matched text (`pat`, since the regex is the literal
token), the original text before the match and the original text after the
match for the four dollar patterns; all other characters are copied. -/
def expandRepl (pat before after : List Char) : List Char → List Char
  | [] => []
  | c :: rest =>
    if c = '$' then
      match rest with
      | [] => ['$']
      | d :: rest₂ =>
        if d = '$' then '$' :: expandRepl pat before after rest₂
        else if d = '&' then pat ++ expandRepl pat before after rest₂
        else if d = Char.ofNat 96 then before ++ expandRepl pat before after rest₂
        else if d = Char.ofNat 39 then after ++ expandRepl pat before after rest₂
        else '$' :: d :: expandRepl pat before after rest₂
    else c :: expandRepl pat before after rest

/-- True when the string contains no substitution pattern, so that
GetSubstitution copies it verbatim. -/
def noEscape : List Char → Bool
  | [] => true
  | c :: rest =>
    if c = '$' then
      match rest with
      | [] => true
      | d :: rest₂ => if isSubstIntro d then false else noEscape rest₂
    else noEscape rest

/-- The faithful fuel-indexed scan: `pre` accumulates the consumed original
input in reverse, so that the dollar-backquote expansion can see the text
before the match; the dollar-quote expansion sees the unconsumed tail. -/
def jsReplaceAllF (pat r : List Char) : Nat → List Char → List Char → List Char
  | 0, _, s => s
  | _ + 1, _, [] => []
  | fuel + 1, pre, c :: s =>
    if pat ≠ [] ∧ pat.isPrefixOf (c :: s) then
      expandRepl pat pre.reverse (List.drop pat.length (c :: s)) r
        ++ jsReplaceAllF pat r fuel (pat.reverse ++ pre) (List.drop pat.length (c :: s))
    else
      c :: jsReplaceAllF pat r fuel (c :: pre) s

/-- `s.replace(/pat/g, r)` with GetSubstitution. -/
def jsReplaceAll (s pat r : List Char) : List Char :=
  jsReplaceAllF pat r s.length [] s

theorem expandRepl_of_noEscape (pat b a : List Char) :
    ∀ n r, r.length ≤ n → noEscape r = true → expandRepl pat b a r = r := by
  intro n
  induction n with
  | zero =>
    intro r hlen _
    have : r = [] := List.eq_nil_of_length_eq_zero (Nat.le_zero.mp hlen)
    subst this
    rfl
  | succ n ih =>
    intro r hlen hr
    cases r with
    | nil => rfl
    | cons c rest =>
      by_cases hc : c = '$'
      · subst hc
        cases rest with
        | nil => rfl
        | cons d rest₂ =>
          rw [noEscape.eq_def] at hr
          simp only [if_pos rfl] at hr
          have hd : isSubstIntro d = false := by
            by_cases h : isSubstIntro d = true
            · simp [h] at hr
            · simpa using h
          have hrest : noEscape rest₂ = true := by
            simpa [hd] using hr
          obtain ⟨⟨⟨hd1, hd2⟩, hd3⟩, hd4⟩ :
              ((¬ d = '$' ∧ ¬ d = '&') ∧ ¬ d = Char.ofNat 96)
                ∧ ¬ d = Char.ofNat 39 := by
            simpa [isSubstIntro] using hd
          rw [expandRepl.eq_def]
          simp only [if_pos rfl]
          rw [if_neg hd1, if_neg hd2, if_neg hd3, if_neg hd4]
          rw [ih rest₂ (by simp at hlen; omega) hrest]
          simp
      · rw [noEscape.eq_def] at hr
        simp only [hc, if_false] at hr
        rw [expandRepl.eq_def]
        simp only [hc, if_false]
        rw [ih rest (by simp at hlen; omega) hr]

theorem expandRepl_eq_self (pat b a r : List Char) (hr : noEscape r = true) :
    expandRepl pat b a r = r :=
  expandRepl_of_noEscape pat b a r.length r le_rfl hr

/-- With a replacement free of substitution patterns, the faithful scan is
the literal scan, whatever text has been consumed so far. -/
theorem jsReplaceAllF_eq_lit (pat r : List Char) (hr : noEscape r = true) :
    ∀ fuel pre s, jsReplaceAllF pat r fuel pre s = jsReplaceAllLitF pat r fuel s := by
  intro fuel
  induction fuel with
  | zero =>
    intro pre s
    rfl
  | succ f ih =>
    intro pre s
    cases s with
    | nil => rfl
    | cons c s₂ =>
      simp only [jsReplaceAllF, jsReplaceAllLitF]
      by_cases hc : pat ≠ [] ∧ pat.isPrefixOf (c :: s₂)
      · rw [if_pos hc, if_pos hc,
          expandRepl_eq_self pat pre.reverse (List.drop pat.length (c :: s₂)) r hr,
          ih]
      · rw [if_neg hc, if_neg hc, ih]

theorem jsReplaceAll_eq_lit (s pat r : List Char) (hr : noEscape r = true) :
    jsReplaceAll s pat r = jsReplaceAllLit s pat r :=
  jsReplaceAllF_eq_lit pat r hr s.length [] s

/-! ### The four placeholder tokens and the asset-name substitution

`parsePackageJson` (src/index.js lines 145-148) performs
`assetName.replace(/{{arch}}/g, ..)`, then `{{platform}}`, then
`{{version}}`, then `{{bin_name}}`, in that order. -/

def mkTok (name : List Char) : List Char := '{' :: '{' :: name ++ ['}', '}']

def archTok : List Char := mkTok ['a', 'r', 'c', 'h']

def platformTok : List Char := mkTok ['p', 'l', 'a', 't', 'f', 'o', 'r', 'm']

def versionTok : List Char := mkTok ['v', 'e', 'r', 's', 'i', 'o', 'n']

def binNameTok : List Char := mkTok ['b', 'i', 'n', '_', 'n', 'a', 'm', 'e']

/-- The four replacements of src/index.js lines 145-148, in source order,
with GetSubstitution applied to each replacement value. -/
def substAssetName (s arch platform version binName : List Char) : List Char :=
  jsReplaceAll
    (jsReplaceAll
      (jsReplaceAll
        (jsReplaceAll s archTok arch)
        platformTok platform)
      versionTok version)
    binNameTok binName

/-- The same four replacements with the values taken verbatim; coincides
with `substAssetName` when no value contains a substitution pattern. -/
def substAssetNameLit (s arch platform version binName : List Char) : List Char :=
  jsReplaceAllLit
    (jsReplaceAllLit
      (jsReplaceAllLit
        (jsReplaceAllLit s archTok arch)
        platformTok platform)
      versionTok version)
    binNameTok binName

theorem substAssetName_eq_lit (s a pl v b : List Char)
    (ha : noEscape a = true) (hpl : noEscape pl = true)
    (hv : noEscape v = true) (hb : noEscape b = true) :
    substAssetName s a pl v b = substAssetNameLit s a pl v b := by
  rw [substAssetName, substAssetNameLit,
    jsReplaceAll_eq_lit _ archTok a ha,
    jsReplaceAll_eq_lit _ platformTok pl hpl,
    jsReplaceAll_eq_lit _ versionTok v hv,
    jsReplaceAll_eq_lit _ binNameTok b hb]

theorem mkTok_ne_nil (m : List Char) : mkTok m ≠ [] := by simp [mkTok]

theorem mkTok_head (m : List Char) : ∃ u, mkTok m = '{' :: u := ⟨_, rfl⟩

theorem mkTok_last (m : List Char) : ∃ u, mkTok m = u ++ ['}'] :=
  ⟨'{' :: '{' :: m ++ ['}'], by simp [mkTok]⟩

/-- A replacement value is benign when it contains no substitution pattern
(so GetSubstitution copies it verbatim), contains no brace, and is not a
factor of any of the four placeholder tokens.  The values derived from the
architecture/platform mappings satisfy this; a manifest-supplied `version` or
binary name may violate it (see the counterexample below). -/
def goodRepl (r : List Char) : Prop :=
  noEscape r = true ∧ '{' ∉ r ∧ '}' ∉ r ∧
    ¬ r <:+: archTok ∧ ¬ r <:+: platformTok ∧
      ¬ r <:+: versionTok ∧ ¬ r <:+: binNameTok

instance (r : List Char) : Decidable (goodRepl r) := by
  unfold goodRepl
  infer_instance

/-- Tracing one of the four tokens backwards through all four replacement
passes: it must have been present in the template already, and it equals none
of the four patterns — which is absurd for the four tokens themselves. -/
theorem token_back4 (t : List Char)
    (ht1 : ∃ u, t = '{' :: u) (ht2 : ∃ u, t = u ++ ['}'])
    (s a pl v b : List Char)
    (ha : '{' ∉ a ∧ '}' ∉ a ∧ ¬ a <:+: t)
    (hpl : '{' ∉ pl ∧ '}' ∉ pl ∧ ¬ pl <:+: t)
    (hv : '{' ∉ v ∧ '}' ∉ v ∧ ¬ v <:+: t)
    (hb : '{' ∉ b ∧ '}' ∉ b ∧ ¬ b <:+: t) :
    t <:+: substAssetNameLit s a pl v b →
      t <:+: s ∧ t ≠ archTok ∧ t ≠ platformTok ∧ t ≠ versionTok ∧ t ≠ binNameTok := by
  intro hi
  obtain ⟨h3, hne4⟩ := token_infix_back_all binNameTok b t (mkTok_ne_nil _)
    ht1 ht2 hb.1 hb.2.1 hb.2.2 _ hi
  obtain ⟨h2, hne3⟩ := token_infix_back_all versionTok v t (mkTok_ne_nil _)
    ht1 ht2 hv.1 hv.2.1 hv.2.2 _ h3
  obtain ⟨h1, hne2⟩ := token_infix_back_all platformTok pl t (mkTok_ne_nil _)
    ht1 ht2 hpl.1 hpl.2.1 hpl.2.2 _ h2
  obtain ⟨h0, hne1⟩ := token_infix_back_all archTok a t (mkTok_ne_nil _)
    ht1 ht2 ha.1 ha.2.1 ha.2.2 _ h1
  exact ⟨h0, hne1, hne2, hne3, hne4⟩

/-- After one full substitution pass with benign replacement values, none of
the four placeholder tokens occurs in the result. -/
theorem substAssetName_no_token (s a pl v b : List Char)
    (ha : goodRepl a) (hpl : goodRepl pl) (hv : goodRepl v) (hb : goodRepl b) :
    ¬ archTok <:+: substAssetName s a pl v b ∧
      ¬ platformTok <:+: substAssetName s a pl v b ∧
        ¬ versionTok <:+: substAssetName s a pl v b ∧
          ¬ binNameTok <:+: substAssetName s a pl v b := by
  rw [substAssetName_eq_lit s a pl v b ha.1 hpl.1 hv.1 hb.1]
  refine ⟨fun hi => ?_, fun hi => ?_, fun hi => ?_, fun hi => ?_⟩
  · exact (token_back4 archTok (mkTok_head _) (mkTok_last _) s a pl v b
      ⟨ha.2.1, ha.2.2.1, ha.2.2.2.1⟩ ⟨hpl.2.1, hpl.2.2.1, hpl.2.2.2.1⟩
      ⟨hv.2.1, hv.2.2.1, hv.2.2.2.1⟩ ⟨hb.2.1, hb.2.2.1, hb.2.2.2.1⟩ hi).2.1 rfl
  · exact (token_back4 platformTok (mkTok_head _) (mkTok_last _) s a pl v b
      ⟨ha.2.1, ha.2.2.1, ha.2.2.2.2.1⟩ ⟨hpl.2.1, hpl.2.2.1, hpl.2.2.2.2.1⟩
      ⟨hv.2.1, hv.2.2.1, hv.2.2.2.2.1⟩ ⟨hb.2.1, hb.2.2.1, hb.2.2.2.2.1⟩ hi).2.2.1 rfl
  · exact (token_back4 versionTok (mkTok_head _) (mkTok_last _) s a pl v b
      ⟨ha.2.1, ha.2.2.1, ha.2.2.2.2.2.1⟩ ⟨hpl.2.1, hpl.2.2.1, hpl.2.2.2.2.2.1⟩
      ⟨hv.2.1, hv.2.2.1, hv.2.2.2.2.2.1⟩ ⟨hb.2.1, hb.2.2.1, hb.2.2.2.2.2.1⟩ hi).2.2.2.1 rfl
  · exact (token_back4 binNameTok (mkTok_head _) (mkTok_last _) s a pl v b
      ⟨ha.2.1, ha.2.2.1, ha.2.2.2.2.2.2⟩ ⟨hpl.2.1, hpl.2.2.1, hpl.2.2.2.2.2.2⟩
      ⟨hv.2.1, hv.2.2.1, hv.2.2.2.2.2.2⟩ ⟨hb.2.1, hb.2.2.1, hb.2.2.2.2.2.2⟩ hi).2.2.2.2 rfl

/-- With benign replacement values the substitution is idempotent. -/
theorem substAssetName_idem (s a pl v b : List Char)
    (ha : goodRepl a) (hpl : goodRepl pl) (hv : goodRepl v) (hb : goodRepl b) :
    substAssetName (substAssetName s a pl v b) a pl v b
      = substAssetName s a pl v b := by
  have heq := substAssetName_eq_lit s a pl v b ha.1 hpl.1 hv.1 hb.1
  obtain ⟨hA, hP, hV, hB⟩ := substAssetName_no_token s a pl v b ha hpl hv hb
  rw [heq] at hA hP hV hB
  rw [substAssetName_eq_lit (substAssetName s a pl v b) a pl v b
    ha.1 hpl.1 hv.1 hb.1, heq]
  rw [substAssetNameLit,
    jsReplaceAllLit_of_not_infix _ _ _ hA,
    jsReplaceAllLit_of_not_infix _ _ _ hP,
    jsReplaceAllLit_of_not_infix _ _ _ hV,
    jsReplaceAllLit_of_not_infix _ _ _ hB]

/-! ### Platform resolver (src/index.js lines 16-29)

`ARCH_MAPPING` and `PLATFORM_MAPPING` are fixed JS object literals; the
`in`-test plus property read of `parsePackageJson` is one `Option` lookup. -/

def ARCH_MAPPING : String → Option String := fun a =>
  match a with
  | "ia32" => some "386"
  | "x64" => some "amd64"
  | "arm" => some "arm"
  | "arm64" => some "arm64"
  | _ => none

def PLATFORM_MAPPING : String → Option String := fun p =>
  match p with
  | "darwin" => some "darwin"
  | "linux" => some "linux"
  | "win32" => some "windows"
  | "freebsd" => some "freebsd"
  | _ => none

/-! ### Manifest data model

A parsed `package.json` carries a `goBinary` property that may be absent
(`undefined`/`null`: any property read on it throws a `TypeError`), a
non-object primitive (string/number/boolean: property reads yield
`undefined`, modelled as the empty string, which is equally falsy), or an
object with string fields.  An absent string field and an empty string field
are identified: both are falsy, and the fields are only consumed through
truthiness tests and concatenation after validation. -/

structure GoBinaryObj where
  version : String
  name : String
  path : String
  owner : String
  repo : String
  assetName : String
  auth : Bool
deriving DecidableEq, Repr

inductive GoBinaryValue where
  | missing
  | primitive
  | obj (o : GoBinaryObj)
deriving DecidableEq, Repr

/-- JS runtime exceptions that the embedded fragments can raise. -/
inductive JsError where
  | typeError
  | fsError
deriving DecidableEq, Repr

/-- The `InvalidConfiguration` messages of `validateConfiguration`
(src/index.js lines 73-102), one constructor per returned string:
`versionMissing` is the `version`-property message of line 76,
`goBinaryNotObject` the defined-and-object message of line 80,
`nameMissing`/`pathMissing`/`ownerMissing`/`repoMissing`/`assetNameMissing`
the messages of lines 84, 88, 92, 96 and 100, each naming its field. -/
inductive ConfigError where
  | versionMissing
  | goBinaryNotObject
  | nameMissing
  | pathMissing
  | ownerMissing
  | repoMissing
  | assetNameMissing
deriving DecidableEq, Repr

/-- `packageJson.goBinary.f`: a property read, which throws a `TypeError`
when `goBinary` is absent. -/
def fieldRead (g : GoBinaryValue) (f : GoBinaryObj → String) : Except JsError String :=
  match g with
  | .missing => .error .typeError
  | .primitive => .ok ""
  | .obj o => .ok (f o)

/-- `packageJson.goBinary.auth` (line 132); `undefined` is falsy. -/
def authRead (g : GoBinaryValue) : Except JsError Bool :=
  match g with
  | .missing => .error .typeError
  | .primitive => .ok false
  | .obj o => .ok o.auth

/-- `!packageJson.goBinary || typeof(packageJson.goBinary) !== "object"`
(line 79).  `missing` covers `undefined` and `null` (falsy, or property reads
already threw); primitives fail the `typeof` test. -/
def goBinaryTypeCheckFails (g : GoBinaryValue) : Bool :=
  match g with
  | .obj _ => false
  | _ => true

/-- src/index.js lines 73-102, check for check in source order.  Note the
source reads `packageJson.goBinary.version` (line 75) before checking that
`goBinary` is defined and an object (line 79). -/
def validateConfiguration (g : GoBinaryValue) : Except JsError (Option ConfigError) := do
  let version ← fieldRead g GoBinaryObj.version
  if version = "" then
    return some ConfigError.versionMissing
  else if goBinaryTypeCheckFails g then
    return some ConfigError.goBinaryNotObject
  else
    let name ← fieldRead g GoBinaryObj.name
    if name = "" then
      return some ConfigError.nameMissing
    else
      let path ← fieldRead g GoBinaryObj.path
      if path = "" then
        return some ConfigError.pathMissing
      else
        let owner ← fieldRead g GoBinaryObj.owner
        if owner = "" then
          return some ConfigError.ownerMissing
        else
          let repo ← fieldRead g GoBinaryObj.repo
          if repo = "" then
            return some ConfigError.repoMissing
          else
            let assetName ← fieldRead g GoBinaryObj.assetName
            if assetName = "" then
              return some ConfigError.assetNameMissing
            else
              return none

/-- `if (version[0] === 'v') version = version.substr(1)` (line 138). -/
def stripLeadingV (v : String) : String :=
  match v.data with
  | [] => v
  | c :: rest => if c = 'v' then String.mk rest else v

/-- The record returned by `parsePackageJson` (lines 150-158). -/
structure ResolvedOptions where
  binName : String
  binPath : String
  version : String
  auth : Bool
  owner : String
  repo : String
  assetName : String
deriving DecidableEq, Repr

/-- String-level wrapper for the four replacements of lines 145-148. -/
def substAssetNameS (s garch gplat version binName : String) : String :=
  String.mk (substAssetName s.data garch.data gplat.data version.data binName.data)

/-- src/index.js lines 104-159.  Inputs: `process.arch`, `process.platform`,
and the manifest (`none` models a missing `package.json`, the
`fs.existsSync` check of line 116; the `console.error`-and-`return` failure
paths all yield `Except.ok none`).  A manifest that is present but
unparseable is outside this model's inputs: `JSON.parse` at line 122 throws
uncaught instead of reaching any modelled path.  A `TypeError` thrown by
`validateConfiguration` propagates. -/
def parsePackageJson (processArch processPlatform : String)
    (manifest : Option GoBinaryValue) : Except JsError (Option ResolvedOptions) :=
  match ARCH_MAPPING processArch with
  | none => .ok none
  | some goArch =>
    match PLATFORM_MAPPING processPlatform with
    | none => .ok none
    | some goPlatform =>
      match manifest with
      | none => .ok none
      | some g => do
        let error ← validateConfiguration g
        match error with
        | some _ => return none
        | none => do
          let binName₀ ← fieldRead g GoBinaryObj.name
          let binPath ← fieldRead g GoBinaryObj.path
          let auth ← authRead g
          let owner ← fieldRead g GoBinaryObj.owner
          let repo ← fieldRead g GoBinaryObj.repo
          let assetName₀ ← fieldRead g GoBinaryObj.assetName
          let version₀ ← fieldRead g GoBinaryObj.version
          let version := stripLeadingV version₀
          let binName := if processPlatform = "win32" then binName₀ ++ ".exe" else binName₀
          let assetName := substAssetNameS assetName₀ goArch goPlatform version binName
          return some ⟨binName, binPath, version, auth, owner, repo, assetName⟩

/-! ### Release asset resolver (src/index.js lines 206-251) -/

structure Asset where
  name : String
  id : Nat
deriving DecidableEq, Repr

structure Release where
  tag_name : String
  assets : List Asset
deriving DecidableEq, Repr

/-- `let tag = 'v' + opts.version` (line 213). -/
def releaseTag (version : String) : String := "v" ++ version

/-- The outcome of `onReleaseResponse` once a 200 releases-list response has
been parsed into an array: either one of the two terminal error callbacks, or
the construction of the asset-download request for the matched asset id. -/
inductive ReleaseResolution where
  | releaseNotFound (tag : String)
  | assetNotFound (assetName : String)
  | downloadAsset (assetId : Nat)
deriving DecidableEq, Repr

/-- src/index.js lines 213-241: find the first release whose `tag_name`
equals `"v" + version`, then the first of its assets named `assetName`. -/
def resolveAsset (version assetName : String) (releases : List Release) :
    ReleaseResolution :=
  match releases.find? (fun x => x.tag_name == releaseTag version) with
  | none => .releaseNotFound (releaseTag version)
  | some release =>
    match release.assets.find? (fun x => x.name == assetName) with
    | none => .assetNotFound assetName
    | some asset => .downloadAsset asset.id

/-! ### Installation path resolver (src/index.js lines 31-58) -/

/-- `path.join(a, b)`, modelled as segment concatenation with a separator;
normalisation is irrelevant to the claims (only branch selection and
non-emptiness matter). -/
def pathJoin (a b : String) : String := a ++ "/" ++ b

/-- The whitespace class of `String.prototype.trim` (the ASCII part, which
is all the claims exercise). -/
def isJsSpace (c : Char) : Bool :=
  c = ' ' || c = '\t' || c = '\n' || c = '\r' || c = '\x0b' || c = '\x0c'

/-- `stdout.trim()`: strip leading and trailing whitespace. -/
def jsTrim (s : String) : String :=
  String.mk (((s.data.dropWhile isJsSpace).reverse.dropWhile isJsSpace).reverse)

/-- src/index.js lines 31-58.  Inputs are the outcome of `exec("npm bin")`
(error flag, stdout, stderr), the `npm_config_prefix` environment variable
(`none`: unset) and `process.cwd()`.  The callback always receives
`(null, dir)`; the returned string is that `dir`. -/
def getInstallationPath (execErr : Bool) (stdout stderr : String)
    (npmConfigPrefix : Option String) (cwd : String) : String :=
  let dir :=
    if execErr = true ∨ stderr ≠ "" ∨ stdout = "" then
      match npmConfigPrefix with
      | some p => if p ≠ "" then pathJoin p "bin" else ""
      | none => ""
    else
      jsTrim stdout
  if dir = "" then pathJoin cwd "node_modules/.bin" else dir

/-! ### install: the token gate before the release query
(src/index.js lines 170-253) -/

/-- Where `install` ends up before any release request is issued:
`invalidInput` is `callback(INVALID_INPUT)` (line 173); `missingTokenAbort`
is the `console.error` + bare `return` of lines 193-194 (note: it does NOT
invoke the callback); `releaseQuery` is the `request(releasesOptions, ...)`
call of line 253, carrying the token used for the authorization header. -/
inductive InstallStep where
  | invalidInput
  | missingTokenAbort
  | releaseQuery (token : Option String)
deriving DecidableEq, Repr

/-- src/index.js lines 172-196 and 253: the control flow of `install` up to
the releases-list request.  `githubToken` is `process.env['GITHUB_TOKEN']`
(`!token` is true for `undefined` and for the empty string). -/
def installPreQuery (opts : Option ResolvedOptions) (githubToken : Option String) :
    InstallStep :=
  match opts with
  | none => .invalidInput
  | some o =>
    if o.auth then
      match githubToken with
      | none => .missingTokenAbort
      | some t => if t = "" then .missingTokenAbort else .releaseQuery (some t)
    else
      .releaseQuery none

/-- Whether the step hands an argument to `install`'s completion callback.
The missing-token path returns without calling it. -/
def invokesCallback : InstallStep → Bool
  | .invalidInput => true
  | .missingTokenAbort => false
  | .releaseQuery _ => true

/-- Whether the missing-token message is printed to standard error. -/
def logsMissingToken : InstallStep → Bool
  | .missingTokenAbort => true
  | _ => false

/-- The exit code set on the paths decided before the release query.
`process.exit` is only reached inside the dispatch callback (lines 287-294),
so a step that never invokes the callback yields `none`: no exit call
(`releaseQuery` also yields `none` here, its exit happens asynchronously
later). -/
def installExitBehavior : InstallStep → Option Nat
  | .invalidInput => some 1
  | .missingTokenAbort => none
  | .releaseQuery _ => none

/-! ### Command dispatch (src/index.js lines 274-295) -/

inductive OutStream where
  | stdout
  | stderr
deriving DecidableEq, Repr

/-- Property names an object literal inherits from `Object.prototype` in the
JS runtime: `actions[cmd]` is truthy for each of these although they are not
own properties of the `actions` literal, so `!actions[cmd]` is false and the
usage branch is skipped. -/
def objectPrototypeKeys : List String :=
  ["constructor", "hasOwnProperty", "isPrototypeOf", "propertyIsEnumerable",
   "toLocaleString", "toString", "valueOf",
   "__defineGetter__", "__defineSetter__", "__lookupGetter__",
   "__lookupSetter__", "__proto__"]

/-- `!actions[cmd]` is false exactly when the lookup yields a truthy value:
an own property (`install`/`uninstall`) or an inherited one. -/
def actionsLookupTruthy (cmd : String) : Bool :=
  cmd == "install" || cmd == "uninstall" || objectPrototypeKeys.contains cmd

/-- src/index.js lines 282-285: when `!actions[cmd]`, the usage message is
printed with `console.log` (standard output) and `process.exit(1)` runs;
otherwise no usage message is emitted on this branch. -/
def usageMessageBehavior (cmd : String) : Option (OutStream × Nat) :=
  if actionsLookupTruthy cmd then none else some (.stdout, 1)

/-- The dispatch callback (lines 287-294): an error exits 1, success exits 0. -/
def callbackExitCode : Option String → Nat
  | some _ => 1
  | none => 0

/-! ### uninstall (src/index.js lines 256-270) -/

/-- `opts.binName` (line 263): a property read on the result of
`parsePackageJson`, which throws a `TypeError` when that result is
`undefined`. -/
def binNameRead (opts : Option ResolvedOptions) : Except JsError String :=
  match opts with
  | .none => .error .typeError
  | .some o => .ok o.binName

/-- The body of the `try` block (lines 262-266): evaluate `opts.binName`,
join it to the installation path, and call `fs.unlinkSync` (whose outcome is
the input function `unlink`). -/
def uninstallTryBlock (opts : Option ResolvedOptions) (installationPath : String)
    (unlink : String → Except JsError Unit) : Except JsError Unit := do
  let bn ← binNameRead opts
  unlink (pathJoin installationPath bn)

/-- Lines 262-268: the `catch` swallows any exception from the `try` block,
and `callback(null)` follows unconditionally. -/
def uninstallCallbackValue (opts : Option ResolvedOptions) (installationPath : String)
    (unlink : String → Except JsError Unit) : Option String :=
  match uninstallTryBlock opts installationPath unlink with
  | .ok _ => none
  | .error _ => none

/-! ### Shared helper lemmas for the claims -/

theorem validateConfiguration_obj_ok (o : GoBinaryObj)
    (hv : o.version ≠ "") (hn : o.name ≠ "") (hp : o.path ≠ "")
    (ho : o.owner ≠ "") (hr : o.repo ≠ "") (ha : o.assetName ≠ "") :
    validateConfiguration (GoBinaryValue.obj o) = Except.ok none := by
  simp [validateConfiguration, fieldRead, goBinaryTypeCheckFails,
    Bind.bind, Except.bind, Pure.pure, Except.pure, hv, hn, hp, ho, hr, ha]

theorem find?_first {α : Type} (p : α → Bool) (pre : List α) (x : α) (post : List α)
    (hpre : ∀ y ∈ pre, ¬ p y) (hx : p x) :
    List.find? p (pre ++ x :: post) = some x := by
  induction pre with
  | nil => simp [List.find?_cons_of_pos, hx]
  | cons a pre ih =>
    have ha : ¬ p a := hpre a (List.mem_cons_self a pre)
    rw [List.cons_append, List.find?_cons_of_neg _ (by simpa using ha)]
    exact ih (fun y hy => hpre y (List.mem_cons_of_mem a hy))

theorem pathJoin_ne_empty (a b : String) : pathJoin a b ≠ "" := by
  intro h
  have hl := congrArg String.length h
  rw [pathJoin] at hl
  simp [String.length_append] at hl
  exact absurd hl.1.2 (by decide)

/-! ### The claims -/

/-- C1: for a valid manifest with goBinary fields `name="mytool"`,
`path="./bin"`, `version="v1.0.0"`, `assetName="mytool-{{platform}}-{{arch}}"`,
parsed on a host reporting architecture `x64` and platform `linux`,
`parsePackageJson` returns options with assetName `"mytool-linux-amd64"`,
version `"1.0.0"` (the single leading `v` stripped), binName `"mytool"`
(no `.exe` suffix off Windows), and the release tag subsequently matched is
`"v1.0.0"`. -/
theorem C1_end_to_end (owner repo : String) (auth : Bool)
    (howner : owner ≠ "") (hrepo : repo ≠ "") :
    parsePackageJson "x64" "linux"
        (some (GoBinaryValue.obj ⟨"v1.0.0", "mytool", "./bin", owner, repo,
          "mytool-\x7b\x7bplatform\x7d\x7d-\x7b\x7barch\x7d\x7d", auth⟩))
      = Except.ok (some ⟨"mytool", "./bin", "1.0.0", auth, owner, repo,
          "mytool-linux-amd64"⟩)
    ∧ releaseTag "1.0.0" = "v1.0.0" := by
  constructor
  · have hval : validateConfiguration
        (GoBinaryValue.obj ⟨"v1.0.0", "mytool", "./bin", owner, repo,
          "mytool-\x7b\x7bplatform\x7d\x7d-\x7b\x7barch\x7d\x7d", auth⟩)
        = Except.ok none := by
      simp [validateConfiguration, fieldRead, goBinaryTypeCheckFails,
        Bind.bind, Except.bind, Pure.pure, Except.pure, howner, hrepo]
    simp only [parsePackageJson, ARCH_MAPPING, PLATFORM_MAPPING, hval]
    rfl
  · rfl

theorem C1_end_to_end_witness :
    parsePackageJson "x64" "linux"
        (some (GoBinaryValue.obj ⟨"v1.0.0", "mytool", "./bin", "own", "rep",
          "mytool-\x7b\x7bplatform\x7d\x7d-\x7b\x7barch\x7d\x7d", false⟩))
      = Except.ok (some ⟨"mytool", "./bin", "1.0.0", false, "own", "rep",
          "mytool-linux-amd64"⟩)
    ∧ releaseTag "1.0.0" = "v1.0.0" :=
  C1_end_to_end "own" "rep" false (by decide) (by decide)

/-- C2: for every releases-list response that is a JSON array, install selects
the first release whose `tag_name` equals `"v" + version` (exact,
case-sensitive); if no release matches it fails with the release-not-found
error and issues no asset-download request; if a release matches but none of
its assets is named `assetName` it fails with the asset-not-found error and
issues no asset-download request. -/
theorem C2_release_resolution (version assetName : String) (releases : List Release) :
    ((∀ r ∈ releases, r.tag_name ≠ releaseTag version) →
      resolveAsset version assetName releases
          = ReleaseResolution.releaseNotFound (releaseTag version)
        ∧ ∀ i, resolveAsset version assetName releases ≠ ReleaseResolution.downloadAsset i)
  ∧ (∀ pre rel post, releases = pre ++ rel :: post →
      (∀ r ∈ pre, r.tag_name ≠ releaseTag version) →
      rel.tag_name = releaseTag version →
      (∀ a ∈ rel.assets, a.name ≠ assetName) →
      resolveAsset version assetName releases
          = ReleaseResolution.assetNotFound assetName
        ∧ ∀ i, resolveAsset version assetName releases ≠ ReleaseResolution.downloadAsset i) := by
  constructor
  · intro h
    have hf : releases.find? (fun x => x.tag_name == releaseTag version) = none :=
      List.find?_eq_none.mpr (fun x hx => by simp [h x hx])
    constructor
    · simp [resolveAsset, hf]
    · intro i
      simp [resolveAsset, hf]
  · intro pre rel post heq hpre hrel hassets
    subst heq
    have hf : List.find? (fun x => x.tag_name == releaseTag version) (pre ++ rel :: post)
        = some rel :=
      find?_first _ pre rel post (fun y hy => by simp [hpre y hy]) (by simp [hrel])
    have hfa : rel.assets.find? (fun x => x.name == assetName) = none :=
      List.find?_eq_none.mpr (fun a ha => by simp [hassets a ha])
    constructor
    · simp [resolveAsset, hf, hfa]
    · intro i
      simp [resolveAsset, hf, hfa]

theorem C2_release_resolution_witness :
    (resolveAsset "1.0.0" "tool.tgz" [⟨"v2.0.0", []⟩]
        = ReleaseResolution.releaseNotFound "v1.0.0"
      ∧ ∀ i, resolveAsset "1.0.0" "tool.tgz" [⟨"v2.0.0", []⟩]
          ≠ ReleaseResolution.downloadAsset i)
  ∧ (resolveAsset "1.0.0" "tool.tgz" [⟨"v1.0.0", [⟨"other.tgz", 7⟩]⟩]
        = ReleaseResolution.assetNotFound "tool.tgz"
      ∧ ∀ i, resolveAsset "1.0.0" "tool.tgz" [⟨"v1.0.0", [⟨"other.tgz", 7⟩]⟩]
          ≠ ReleaseResolution.downloadAsset i) :=
  ⟨(C2_release_resolution "1.0.0" "tool.tgz" [⟨"v2.0.0", []⟩]).1 (by decide),
   (C2_release_resolution "1.0.0" "tool.tgz" [⟨"v1.0.0", [⟨"other.tgz", 7⟩]⟩]).2
     [] ⟨"v1.0.0", [⟨"other.tgz", 7⟩]⟩ [] rfl (by decide) (by decide) (by decide)⟩

/-- C3: for every manifest whose goBinary is an object: if any one of the
required fields version, name, path, owner, repo, assetName is absent or
empty, `validateConfiguration` returns an invalid-configuration error naming
that missing field (first failing check wins, in the order version, name,
path, owner, repo, assetName); if all six are non-empty it returns no error
and parsing succeeds with a normalized descriptor. -/
theorem C3_validate_required_fields (o : GoBinaryObj) :
    (o.version = "" →
      validateConfiguration (GoBinaryValue.obj o) = Except.ok (some ConfigError.versionMissing))
  ∧ (o.version ≠ "" → o.name = "" →
      validateConfiguration (GoBinaryValue.obj o) = Except.ok (some ConfigError.nameMissing))
  ∧ (o.version ≠ "" → o.name ≠ "" → o.path = "" →
      validateConfiguration (GoBinaryValue.obj o) = Except.ok (some ConfigError.pathMissing))
  ∧ (o.version ≠ "" → o.name ≠ "" → o.path ≠ "" → o.owner = "" →
      validateConfiguration (GoBinaryValue.obj o) = Except.ok (some ConfigError.ownerMissing))
  ∧ (o.version ≠ "" → o.name ≠ "" → o.path ≠ "" → o.owner ≠ "" → o.repo = "" →
      validateConfiguration (GoBinaryValue.obj o) = Except.ok (some ConfigError.repoMissing))
  ∧ (o.version ≠ "" → o.name ≠ "" → o.path ≠ "" → o.owner ≠ "" → o.repo ≠ "" →
      o.assetName = "" →
      validateConfiguration (GoBinaryValue.obj o) = Except.ok (some ConfigError.assetNameMissing))
  ∧ (o.version ≠ "" → o.name ≠ "" → o.path ≠ "" → o.owner ≠ "" → o.repo ≠ "" →
      o.assetName ≠ "" →
      validateConfiguration (GoBinaryValue.obj o) = Except.ok none
        ∧ ∀ pa pp ga gp, ARCH_MAPPING pa = some ga → PLATFORM_MAPPING pp = some gp →
            ∃ opts, parsePackageJson pa pp (some (GoBinaryValue.obj o))
              = Except.ok (some opts)) := by
  refine ⟨?_, ?_, ?_, ?_, ?_, ?_, ?_⟩
  · intro h
    simp [validateConfiguration, fieldRead, Bind.bind, Except.bind, Pure.pure, Except.pure, h]
  · intro hv h
    simp [validateConfiguration, fieldRead, goBinaryTypeCheckFails, Bind.bind, Except.bind,
      Pure.pure, Except.pure, hv, h]
  · intro hv hn h
    simp [validateConfiguration, fieldRead, goBinaryTypeCheckFails, Bind.bind, Except.bind,
      Pure.pure, Except.pure, hv, hn, h]
  · intro hv hn hp h
    simp [validateConfiguration, fieldRead, goBinaryTypeCheckFails, Bind.bind, Except.bind,
      Pure.pure, Except.pure, hv, hn, hp, h]
  · intro hv hn hp ho h
    simp [validateConfiguration, fieldRead, goBinaryTypeCheckFails, Bind.bind, Except.bind,
      Pure.pure, Except.pure, hv, hn, hp, ho, h]
  · intro hv hn hp ho hr h
    simp [validateConfiguration, fieldRead, goBinaryTypeCheckFails, Bind.bind, Except.bind,
      Pure.pure, Except.pure, hv, hn, hp, ho, hr, h]
  · intro hv hn hp ho hr ha
    have hval := validateConfiguration_obj_ok o hv hn hp ho hr ha
    refine ⟨hval, ?_⟩
    intro pa pp ga gp hga hgp
    refine ⟨⟨if pp = "win32" then o.name ++ ".exe" else o.name, o.path,
      stripLeadingV o.version, o.auth, o.owner, o.repo,
      substAssetNameS o.assetName ga gp (stripLeadingV o.version)
        (if pp = "win32" then o.name ++ ".exe" else o.name)⟩, ?_⟩
    simp only [parsePackageJson, hga, hgp, hval]
    rfl

theorem C3_validate_required_fields_witness :
    validateConfiguration (GoBinaryValue.obj ⟨"1.0.0", "", "p", "o", "r", "a", false⟩)
        = Except.ok (some ConfigError.nameMissing)
  ∧ validateConfiguration (GoBinaryValue.obj ⟨"1.0.0", "n", "p", "o", "r", "a", false⟩)
        = Except.ok none :=
  ⟨(C3_validate_required_fields ⟨"1.0.0", "", "p", "o", "r", "a", false⟩).2.1
      (by decide) (by decide),
   ((C3_validate_required_fields ⟨"1.0.0", "n", "p", "o", "r", "a", false⟩).2.2.2.2.2.2
      (by decide) (by decide) (by decide) (by decide) (by decide) (by decide)).1⟩

/-- C4 counterexample: the claim says that for a manifest whose goBinary is
absent, `validateConfiguration` short-circuits on the descriptor-type check
and returns the goBinary-must-be-an-object error without faulting.  In the
source the `version` read of line 75 runs first, so the call throws a
`TypeError` instead of returning that error. -/
theorem C4_cex :
    validateConfiguration GoBinaryValue.missing = Except.error JsError.typeError
  ∧ validateConfiguration GoBinaryValue.missing
      ≠ Except.ok (some ConfigError.goBinaryNotObject) := by
  refine ⟨rfl, ?_⟩
  intro h
  cases h

/-- C4 amended: the `version` check of line 75 precedes the descriptor-type
check of line 79.  For a manifest whose goBinary is absent,
`validateConfiguration` faults with a `TypeError` while reading `version`
from the missing descriptor; for a manifest whose goBinary is a non-object
primitive it returns the version-missing error rather than the
goBinary-type error; the goBinary-type error message is unreachable. -/
theorem C4_amended :
    validateConfiguration GoBinaryValue.missing = Except.error JsError.typeError
  ∧ validateConfiguration GoBinaryValue.primitive
      = Except.ok (some ConfigError.versionMissing)
  ∧ ∀ g, validateConfiguration g ≠ Except.ok (some ConfigError.goBinaryNotObject) := by
  refine ⟨rfl, rfl, ?_⟩
  intro g
  cases g with
  | missing =>
    intro h
    cases h
  | primitive =>
    intro h
    cases h
  | obj o =>
    simp only [validateConfiguration, fieldRead, goBinaryTypeCheckFails,
      Bind.bind, Except.bind, Pure.pure, Except.pure]
    split_ifs <;> simp_all

/-- C5 counterexample: the claim asserts that for every assetName template no
placeholder token remains after the first substitution pass and a second pass
is a no-op.  With the reachable manifest values version `"ersio"` (non-empty,
so it passes validation) and template `"{{v{{version}}n}}"`, replacing
`{{version}}` splices the surrounding text into a fresh `{{version}}` token:
it survives the first pass, and the second pass rewrites it to `"ersio"`.
(A version of `"$&"` refutes the claim too: GetSubstitution reinserts the
matched token.) -/
theorem C5_cex :
    versionTok <:+:
      substAssetName "\x7b\x7bv\x7b\x7bversion\x7d\x7dn\x7d\x7d".data
        "amd64".data "linux".data "ersio".data "mytool".data
  ∧ substAssetName
        (substAssetName "\x7b\x7bv\x7b\x7bversion\x7d\x7dn\x7d\x7d".data
          "amd64".data "linux".data "ersio".data "mytool".data)
        "amd64".data "linux".data "ersio".data "mytool".data
      ≠ substAssetName "\x7b\x7bv\x7b\x7bversion\x7d\x7dn\x7d\x7d".data
          "amd64".data "linux".data "ersio".data "mytool".data := by
  decide

/-- C5 amended: the four replacements are global and case-sensitive, and
provided each substituted value is benign — it contains no substitution
pattern (dollar-dollar, dollar-ampersand, dollar-backquote, dollar-quote,
which GetSubstitution would expand), contains no brace character, and is not
a factor of any of the four placeholder tokens; all of which holds for every
value produced by the architecture/platform mappings — no placeholder token
of the four names remains after one pass, and applying the four-replacement
substitution a second time leaves the string unchanged, for every assetName
template. -/
theorem C5_amended (s a pl v b : List Char)
    (ha : goodRepl a) (hpl : goodRepl pl) (hv : goodRepl v) (hb : goodRepl b) :
    (¬ archTok <:+: substAssetName s a pl v b
      ∧ ¬ platformTok <:+: substAssetName s a pl v b
      ∧ ¬ versionTok <:+: substAssetName s a pl v b
      ∧ ¬ binNameTok <:+: substAssetName s a pl v b)
  ∧ substAssetName (substAssetName s a pl v b) a pl v b = substAssetName s a pl v b :=
  ⟨substAssetName_no_token s a pl v b ha hpl hv hb,
   substAssetName_idem s a pl v b ha hpl hv hb⟩

theorem C5_amended_witness :
    (¬ archTok <:+:
        substAssetName "mytool-\x7b\x7bplatform\x7d\x7d-\x7b\x7barch\x7d\x7d".data
          "amd64".data "linux".data "1.0.0".data "mytool".data
      ∧ ¬ platformTok <:+:
          substAssetName "mytool-\x7b\x7bplatform\x7d\x7d-\x7b\x7barch\x7d\x7d".data
            "amd64".data "linux".data "1.0.0".data "mytool".data
      ∧ ¬ versionTok <:+:
          substAssetName "mytool-\x7b\x7bplatform\x7d\x7d-\x7b\x7barch\x7d\x7d".data
            "amd64".data "linux".data "1.0.0".data "mytool".data
      ∧ ¬ binNameTok <:+:
          substAssetName "mytool-\x7b\x7bplatform\x7d\x7d-\x7b\x7barch\x7d\x7d".data
            "amd64".data "linux".data "1.0.0".data "mytool".data)
  ∧ substAssetName
        (substAssetName "mytool-\x7b\x7bplatform\x7d\x7d-\x7b\x7barch\x7d\x7d".data
          "amd64".data "linux".data "1.0.0".data "mytool".data)
        "amd64".data "linux".data "1.0.0".data "mytool".data
      = substAssetName "mytool-\x7b\x7bplatform\x7d\x7d-\x7b\x7barch\x7d\x7d".data
          "amd64".data "linux".data "1.0.0".data "mytool".data :=
  C5_amended "mytool-\x7b\x7bplatform\x7d\x7d-\x7b\x7barch\x7d\x7d".data
    "amd64".data "linux".data "1.0.0".data "mytool".data
    (by decide) (by decide) (by decide) (by decide)

/-- C6 counterexample: the claim asserts that whenever `npm bin` exits with
no error, empty stderr and non-empty stdout, the callback receives the
trimmed stdout (a non-empty directory), and that otherwise the
`npm_config_prefix` strategy is tried next.  With whitespace-only stdout
`" "` the code takes the first branch, `dir` becomes the empty trimmed
string, and the final null-check falls through directly to the
cwd fallback — the result is neither the trimmed stdout nor the configured
prefix joined with `bin`. -/
theorem C6_cex :
    getInstallationPath false " " "" (some "/usr/local") "/cwd"
        = pathJoin "/cwd" "node_modules/.bin"
  ∧ getInstallationPath false " " "" (some "/usr/local") "/cwd" ≠ jsTrim " "
  ∧ getInstallationPath false " " "" (some "/usr/local") "/cwd"
      ≠ pathJoin "/usr/local" "bin" := by
  decide

/-- C6 amended: exactly one callback fires, with a non-empty directory:
the trimmed stdout of the `npm bin` subprocess when it exits with no error,
empty stderr, non-empty stdout AND non-empty trimmed stdout; otherwise, when
the subprocess attempt failed (error, stderr output, or empty stdout),
`npm_config_prefix` joined with `bin` when that variable is set and
non-empty, and the cwd-relative `node_modules/.bin` path when it is not;
when the subprocess succeeded but its trimmed stdout is empty, the
`npm_config_prefix` strategy is skipped and the cwd fallback is used
directly. -/
theorem C6_amended (execErr : Bool) (stdout stderr : String)
    (pfx : Option String) (cwd : String) :
    (execErr = false → stderr = "" → stdout ≠ "" → jsTrim stdout ≠ "" →
      getInstallationPath execErr stdout stderr pfx cwd = jsTrim stdout)
  ∧ (execErr = false → stderr = "" → stdout ≠ "" → jsTrim stdout = "" →
      getInstallationPath execErr stdout stderr pfx cwd
        = pathJoin cwd "node_modules/.bin")
  ∧ ((execErr = true ∨ stderr ≠ "" ∨ stdout = "") →
      ∀ p, pfx = some p → p ≠ "" →
        getInstallationPath execErr stdout stderr pfx cwd = pathJoin p "bin")
  ∧ ((execErr = true ∨ stderr ≠ "" ∨ stdout = "") → (pfx = none ∨ pfx = some "") →
      getInstallationPath execErr stdout stderr pfx cwd
        = pathJoin cwd "node_modules/.bin")
  ∧ getInstallationPath execErr stdout stderr pfx cwd ≠ "" := by
  refine ⟨?_, ?_, ?_, ?_, ?_⟩
  · intro he hs hso ht
    have hcond : ¬ (execErr = true ∨ stderr ≠ "" ∨ stdout = "") := by
      subst he
      simp [hs, hso]
    simp only [getInstallationPath]
    rw [if_neg hcond, if_neg ht]
  · intro he hs hso ht
    have hcond : ¬ (execErr = true ∨ stderr ≠ "" ∨ stdout = "") := by
      subst he
      simp [hs, hso]
    simp only [getInstallationPath]
    rw [if_neg hcond, if_pos ht]
  · intro hcond p hp hpne
    subst hp
    simp only [getInstallationPath]
    rw [if_pos hcond, if_pos hpne, if_neg (pathJoin_ne_empty p "bin")]
  · intro hcond hpfx
    simp only [getInstallationPath]
    rw [if_pos hcond]
    rcases hpfx with h | h <;> subst h <;> simp
  · rcases pfx with _ | p <;> simp only [getInstallationPath] <;>
      by_cases hcond : execErr = true ∨ stderr ≠ "" ∨ stdout = ""
    · rw [if_pos hcond]
      simp [pathJoin_ne_empty]
    · rw [if_neg hcond]
      by_cases ht : jsTrim stdout = ""
      · rw [if_pos ht]
        exact pathJoin_ne_empty _ _
      · rw [if_neg ht]
        exact ht
    · rw [if_pos hcond]
      by_cases hpne : p ≠ ""
      · rw [if_pos hpne, if_neg (pathJoin_ne_empty p "bin")]
        exact pathJoin_ne_empty _ _
      · rw [if_neg hpne]
        simp [pathJoin_ne_empty]
    · rw [if_neg hcond]
      by_cases ht : jsTrim stdout = ""
      · rw [if_pos ht]
        exact pathJoin_ne_empty _ _
      · rw [if_neg ht]
        exact ht

theorem C6_amended_witness :
    getInstallationPath false "/x\n" "" none "/cwd" = jsTrim "/x\n"
  ∧ getInstallationPath true "" "" (some "/usr/local") "/cwd"
      = pathJoin "/usr/local" "bin" :=
  ⟨(C6_amended false "/x\n" "" none "/cwd").1 rfl rfl (by decide) (by decide),
   (C6_amended true "" "" (some "/usr/local") "/cwd").2.2.1
     (Or.inl rfl) "/usr/local" rfl (by decide)⟩

/-- C7: for every uninstall invocation with a valid manifest, any error
raised by the deletion of the binary file at the resolved installation path
(including the file being absent) is swallowed by the catch, and uninstall
invokes its callback with success (null error, exit code 0) once the
deletion — of exactly the joined installation path and binary name — has
been attempted. -/
theorem C7_uninstall_swallows_errors (o : ResolvedOptions) (installationPath : String)
    (unlink : String → Except JsError Unit) :
    uninstallTryBlock (some o) installationPath unlink
        = unlink (pathJoin installationPath o.binName)
  ∧ uninstallCallbackValue (some o) installationPath unlink = none
  ∧ callbackExitCode (uninstallCallbackValue (some o) installationPath unlink) = 0 := by
  refine ⟨rfl, ?_, ?_⟩ <;>
    cases hu : uninstallTryBlock (some o) installationPath unlink <;>
      simp [uninstallCallbackValue, callbackExitCode, hu]

/-- C8: for every install invocation whose manifest sets `auth` while
`GITHUB_TOKEN` is unset, the missing-token message is logged to standard
error and the install aborts before any release query; however the source
returns without invoking the completion callback (line 194 is a bare
`return`), so `process.exit(1)` in the dispatch callback is never executed
on this path — no exit call happens at all, contradicting the claimed
exit code 1. -/
theorem C8_missing_token_behavior (o : ResolvedOptions) (hauth : o.auth = true) :
    installPreQuery (some o) none = InstallStep.missingTokenAbort
  ∧ logsMissingToken (installPreQuery (some o) none) = true
  ∧ (∀ t, installPreQuery (some o) none ≠ InstallStep.releaseQuery t)
  ∧ invokesCallback (installPreQuery (some o) none) = false
  ∧ installExitBehavior (installPreQuery (some o) none) = none := by
  have h0 : installPreQuery (some o) none = InstallStep.missingTokenAbort := by
    simp [installPreQuery, hauth]
  refine ⟨h0, ?_, ?_, ?_, ?_⟩
  · rw [h0]
    rfl
  · intro t h
    rw [h0] at h
    exact InstallStep.noConfusion h
  · rw [h0]
    rfl
  · rw [h0]
    rfl

theorem C8_missing_token_behavior_witness :
    installPreQuery (some ⟨"mytool", "./bin", "1.0.0", true, "owner", "repo",
        "mytool-linux-amd64"⟩) none = InstallStep.missingTokenAbort
  ∧ logsMissingToken (installPreQuery (some ⟨"mytool", "./bin", "1.0.0", true,
      "owner", "repo", "mytool-linux-amd64"⟩) none) = true
  ∧ (∀ t, installPreQuery (some ⟨"mytool", "./bin", "1.0.0", true, "owner",
      "repo", "mytool-linux-amd64"⟩) none ≠ InstallStep.releaseQuery t)
  ∧ invokesCallback (installPreQuery (some ⟨"mytool", "./bin", "1.0.0", true,
      "owner", "repo", "mytool-linux-amd64"⟩) none) = false
  ∧ installExitBehavior (installPreQuery (some ⟨"mytool", "./bin", "1.0.0",
      true, "owner", "repo", "mytool-linux-amd64"⟩) none) = none :=
  C8_missing_token_behavior
    ⟨"mytool", "./bin", "1.0.0", true, "owner", "repo", "mytool-linux-amd64"⟩ rfl

/-- C9 counterexample: the claim asserts that every argument other than
`install`/`uninstall` yields a usage error on standard error and exit
code 1.  The source prints the usage message with `console.log` — standard
output, not standard error — and an argument naming an `Object.prototype`
inherited property (for example `toString`) makes `actions[cmd]` truthy, so
the usage branch is bypassed entirely. -/
theorem C9_cex :
    usageMessageBehavior "badcmd" = some (OutStream.stdout, 1)
  ∧ OutStream.stdout ≠ OutStream.stderr
  ∧ usageMessageBehavior "toString" = none := by
  decide

/-- C9 amended: for every command-line argument that is neither `install`
nor `uninstall` nor one of the property names an object literal inherits
from `Object.prototype`, the program prints a usage error to standard
OUTPUT (`console.log`) and exits with code 1; arguments naming inherited
properties bypass the usage check. -/
theorem C9_amended (cmd : String) (h1 : cmd ≠ "install") (h2 : cmd ≠ "uninstall")
    (h3 : cmd ∉ objectPrototypeKeys) :
    usageMessageBehavior cmd = some (OutStream.stdout, 1) := by
  have hc : actionsLookupTruthy cmd = false := by
    have h3c : objectPrototypeKeys.contains cmd = false := by simpa using h3
    have h1c : (cmd == "install") = false := beq_eq_false_iff_ne.mpr h1
    have h2c : (cmd == "uninstall") = false := beq_eq_false_iff_ne.mpr h2
    simp [actionsLookupTruthy, h1c, h2c, h3c]
    exact h3
  simp [usageMessageBehavior, hc]

theorem C9_amended_witness :
    usageMessageBehavior "badcmd" = some (OutStream.stdout, 1) :=
  C9_amended "badcmd" (by decide) (by decide) (by decide)

/-- C10: for every uninstall invocation where `parsePackageJson` yields no
options, uninstall does not check the parse result: reading `binName` from
the undefined options faults (a `TypeError`) inside the installation-path
callback; the fault is raised inside the try block, so the callback is never
invoked with a descriptive error — it is invoked with null, the dispatch
exits 0, and the documented single-error-line-and-exit-1 behavior does not
occur on this path. -/
theorem C10_uninstall_unchecked_parse (installationPath : String)
    (unlink : String → Except JsError Unit) :
    binNameRead none = Except.error JsError.typeError
  ∧ uninstallTryBlock none installationPath unlink = Except.error JsError.typeError
  ∧ uninstallCallbackValue none installationPath unlink = none
  ∧ (∀ msg, uninstallCallbackValue none installationPath unlink ≠ some msg)
  ∧ callbackExitCode (uninstallCallbackValue none installationPath unlink) = 0 := by
  have h0 : uninstallCallbackValue none installationPath unlink = none := rfl
  refine ⟨rfl, rfl, h0, ?_, rfl⟩
  intro msg h
  rw [h0] at h
  exact Option.noConfusion h

end GoNpm
